import Mathlib

/-!
Verification of the CloudNotes catalog and ranking core (`src/app.py`,
class `NotesDatabase`).

The SQLite tables are modelled as Lean lists of rows, and each method of
`NotesDatabase` that the claims touch becomes a pure function from a
`DBState` to a result paired with the successor state.  SQLite `LIKE`
matching (used by `search_notes`) is modelled by an executable matcher
`likeM` over character lists, with `%` and `_` wildcards and ASCII
case-folding, following SQLite's default `LIKE` semantics.  The SHA-256
password digest is an opaque one-way function, so it is passed as a
parameter `hash` to `authenticate`.
-/

namespace CloudNotes

/-- A row of the `users` table. -/
structure User where
  id : Nat
  username : String
  password : String
  email : String
  role : String
deriving DecidableEq, Repr

/-- A row of the `notes` table.  `upload_date` is an abstract timestamp
(SQLite stores a string whose ordering is the chronological one);
`tags` is the JSON-serialized tag list, kept as the raw stored string
because `search_notes` matches against exactly that string. -/
structure Note where
  id : Nat
  title : String
  category : String
  subject : String
  description : String
  uploader_id : Nat
  upload_date : Nat
  downloads : Nat
  tags : String
  file_path : String
  file_name : String
  file_size : Nat
  rating_sum : Int
  rating_count : Nat
deriving DecidableEq, Repr

/-- A row of the `ratings` table (the surrogate `id` and timestamp play
no role in any claim and are omitted). -/
structure Rating where
  note_id : Nat
  user_id : Nat
  rating : Int
  review : String
deriving DecidableEq, Repr

/-- A row of the `download_history` table. -/
structure DownloadEvent where
  note_id : Nat
  user_id : Nat
deriving DecidableEq, Repr

/-- The `self.current_user` dictionary kept by `NotesDatabase`. -/
structure CurrentUser where
  id : Nat
  username : String
  role : String
deriving DecidableEq, Repr

/-- The whole mutable state of `NotesDatabase`: the four tables plus the
process-wide current session. -/
structure DBState where
  users : List User
  notes : List Note
  download_history : List DownloadEvent
  ratings : List Rating
  current_user : Option CurrentUser
deriving DecidableEq, Repr

/-- Model of `NotesDatabase.authenticate`: look the username up, compare the stored
digest with the digest of the supplied password, and on success install
the `{id, username, role}` session.  On failure the state is returned
untouched. -/
def authenticate (hash : String → String) (st : DBState) (username password : String) :
    (Bool × String × Option Nat) × DBState :=
  match st.users.find? (fun u => u.username == username) with
  | some u =>
    if u.password == hash password then
      ((true, "Welcome back, " ++ username ++ "!", some u.id),
       { st with current_user := some { id := u.id, username := u.username, role := u.role } })
    else ((false, "Invalid username or password", none), st)
  | none => ((false, "Invalid username or password", none), st)

/-- The `ON CONFLICT(note_id, user_id)` key predicate of the ratings upsert. -/
def pairPred (nid uid : Nat) (r : Rating) : Bool :=
  r.note_id == nid && r.user_id == uid

/-- The `INSERT ... ON CONFLICT(note_id, user_id) DO UPDATE` statement of
`rate_note`: if a row with the key exists it is updated in place,
otherwise a fresh row is appended. -/
def upsertRating (rs : List Rating) (nid uid : Nat) (v : Int) (review : String) : List Rating :=
  if rs.any (pairPred nid uid) then
    rs.map fun r => if pairPred nid uid r then { r with rating := v, review := review } else r
  else rs ++ [{ note_id := nid, user_id := uid, rating := v, review := review }]

/-- Aggregate `SELECT SUM(rating) FROM ratings WHERE note_id = ?`. -/
def ratingSumFor (rs : List Rating) (nid : Nat) : Int :=
  ((rs.filter fun r => r.note_id == nid).map fun r => r.rating).sum

/-- Aggregate `SELECT COUNT(*) FROM ratings WHERE note_id = ?`. -/
def ratingCountFor (rs : List Rating) (nid : Nat) : Nat :=
  (rs.filter fun r => r.note_id == nid).length

/-- Model of `NotesDatabase.rate_note`: session and range checks, then the upsert,
then the full recompute of `rating_sum`/`rating_count` written to every
`notes` row whose `id` matches. -/
def rate_note (st : DBState) (note_id : Nat) (rating : Int) (review : String) :
    (Bool × String) × DBState :=
  match st.current_user with
  | none => ((false, "Please login first"), st)
  | some cu =>
    if rating < 1 ∨ rating > 5 then ((false, "Rating must be between 1 and 5"), st)
    else
      let ratings' := upsertRating st.ratings note_id cu.id rating review
      ((true, "✅ Rating submitted successfully!"),
       { st with
         ratings := ratings',
         notes := st.notes.map fun n =>
           if n.id == note_id then
             { n with rating_sum := ratingSumFor ratings' note_id,
                      rating_count := ratingCountFor ratings' note_id }
           else n })

/-- Model of `NotesDatabase.download_note`: session check, lookup, then
`UPDATE notes SET downloads = downloads + 1` and the append of one
`download_history` row, returning the note's file path. -/
def download_note (st : DBState) (note_id : Nat) :
    (Bool × String × Option String) × DBState :=
  match st.current_user with
  | none => ((false, "Please login first", none), st)
  | some cu =>
    match st.notes.find? (fun n => n.id == note_id) with
    | none => ((false, "Note not found", none), st)
    | some note =>
      ((true, "✅ '" ++ note.title ++ "' ready for download", some note.file_path),
       { st with
         notes := st.notes.map fun n =>
           if n.id == note_id then { n with downloads := n.downloads + 1 } else n,
         download_history := st.download_history ++ [{ note_id := note_id, user_id := cu.id }] })

/-- Model of `NotesDatabase.delete_note`: session check, lookup, owner-or-admin
permission check, then deletion of the note row and of its
`download_history` and `ratings` rows.  (The best-effort removal of the
physical file touches only the filesystem, which is outside this state.) -/
def delete_note (st : DBState) (note_id : Nat) : (Bool × String) × DBState :=
  match st.current_user with
  | none => ((false, "Please login first"), st)
  | some cu =>
    match st.notes.find? (fun n => n.id == note_id) with
    | none => ((false, "Note not found"), st)
    | some note =>
      if note.uploader_id ≠ cu.id ∧ cu.role ≠ "admin" then
        ((false, "You don't have permission to delete this note"), st)
      else
        ((true, "✅ Note deleted successfully"),
         { st with
           notes := st.notes.filter fun n => n.id != note_id,
           download_history := st.download_history.filter fun d => d.note_id != note_id,
           ratings := st.ratings.filter fun r => r.note_id != note_id })

/-- ASCII case-folding, as SQLite's default `LIKE` applies to `A`–`Z`. -/
def lowCh (c : Char) : Char :=
  if 'A' ≤ c ∧ c ≤ 'Z' then Char.ofNat (c.toNat + 32) else c

/-- SQLite `LIKE` matching over character lists: `%` matches any sequence
(including the empty one) — i.e. the rest of the pattern matches some
suffix of the text — `_` matches exactly one character, and every other
pattern character matches one text character up to ASCII case. -/
def likeM : List Char → List Char → Bool
  | [], s => s.isEmpty
  | p :: ps, s =>
    if p = '%' then s.tails.any (likeM ps)
    else
      match s with
      | [] => false
      | c :: s' => if p = '_' then likeM ps s' else lowCh p == lowCh c && likeM ps s'

/-- Evaluation of `column LIKE pattern` on strings. -/
def sqlLike (pat s : String) : Bool :=
  likeM pat.data s.data

/-- The text condition of `search_notes`: the query is wrapped as
`%query%` and matched with `LIKE` against title, description, subject
and the serialized tag list (OR of the four). -/
def textMatch (query : String) (n : Note) : Bool :=
  sqlLike ("%" ++ query ++ "%") n.title || sqlLike ("%" ++ query ++ "%") n.description ||
    sqlLike ("%" ++ query ++ "%") n.subject || sqlLike ("%" ++ query ++ "%") n.tags

/-- The `avg_rating` column computed by the search query:
`rating_sum / rating_count` when `rating_count > 0`, else `0`
(the SQL `FLOAT` division is modelled exactly, over `Rat`). -/
def avgRating (n : Note) : Rat :=
  if 0 < n.rating_count then (n.rating_sum : Rat) / (n.rating_count : Rat) else 0

/-- One row of the result set of `search_notes`: the note joined with its
uploader's username and the computed average rating. -/
structure NoteView where
  note : Note
  uploader_name : String
  avg_rating : Rat
deriving DecidableEq, Repr

/-- The join `FROM notes n JOIN users u ON n.uploader_id = u.id`: since `users.id`
is the primary key, each note yields at most one joined row, and a note
whose uploader id matches no user yields none. -/
def joinRows (st : DBState) : List NoteView :=
  st.notes.filterMap fun n =>
    (st.users.find? fun u => u.id == n.uploader_id).map fun u =>
      { note := n, uploader_name := u.username, avg_rating := avgRating n }

/-- Comparator for `ORDER BY n.upload_date DESC`. -/
def recentLe (a b : NoteView) : Bool :=
  Nat.ble b.note.upload_date a.note.upload_date

/-- Comparator for `ORDER BY n.downloads DESC`. -/
def popularLe (a b : NoteView) : Bool :=
  Nat.ble b.note.downloads a.note.downloads

/-- Comparator for `ORDER BY avg_rating DESC`. -/
def ratingLe (a b : NoteView) : Bool :=
  decide (b.avg_rating ≤ a.avg_rating)

/-- The `ORDER BY` dispatch of `search_notes` on the sort key; an
unrecognized key adds no `ORDER BY` clause. -/
def sortRows (sort_by : String) (rows : List NoteView) : List NoteView :=
  if sort_by = "recent" then rows.mergeSort recentLe
  else if sort_by = "popular" then rows.mergeSort popularLe
  else if sort_by = "rating" then rows.mergeSort ratingLe
  else rows

/-- Model of `NotesDatabase.search_notes`: join, optional text filter, optional
category filter, then the `ORDER BY` dispatch on the sort key. -/
def search_notes (st : DBState) (query : String) (category : String) (sort_by : String) :
    List NoteView :=
  let rows := joinRows st
  let rows := if query ≠ "" then rows.filter (fun v => textMatch query v.note) else rows
  let rows := if category ≠ "All" then rows.filter (fun v => v.note.category == category) else rows
  sortRows sort_by rows

/-- The denormalized-aggregate invariant: every note's stored
`rating_sum`/`rating_count` agree with the `ratings` table. -/
abbrev aggInv (st : DBState) : Prop :=
  ∀ n ∈ st.notes, n.rating_sum = ratingSumFor st.ratings n.id ∧
    n.rating_count = ratingCountFor st.ratings n.id

/-- Predicate stating that `q` occurs in `s` as a case-insensitive substring (the spec's notion
of a text match). -/
abbrev ciInfix (q s : String) : Prop :=
  (q.data.map lowCh) <:+: (s.data.map lowCh)

/-! Small concrete instances used to exercise the theorems. -/

/-- A concrete admin user. -/
def adminUser : User :=
  { id := 1, username := "admin", password := "H1", email := "admin@u.edu", role := "admin" }

/-- A concrete student user. -/
def studentUser : User :=
  { id := 2, username := "student1", password := "H2", email := "s1@u.edu", role := "student" }

/-- A concrete note uploaded by the admin. -/
def note1 : Note :=
  { id := 1, title := "Intro to Python", category := "Computer Science", subject := "Programming",
    description := "basics", uploader_id := 1, upload_date := 10, downloads := 0,
    tags := "[\"python\"]", file_path := "files/intro.pdf", file_name := "intro.pdf",
    file_size := 120, rating_sum := 0, rating_count := 0 }

/-- A concrete note uploaded by the student. -/
def note2 : Note :=
  { id := 2, title := "Calculus I", category := "Mathematics", subject := "Calculus",
    description := "derivatives", uploader_id := 2, upload_date := 20, downloads := 3,
    tags := "[\"calculus\"]", file_path := "files/calc.pdf", file_name := "calc.pdf",
    file_size := 200, rating_sum := 0, rating_count := 0 }

/-- The student's session dictionary. -/
def studentSession : CurrentUser :=
  { id := 2, username := "student1", role := "student" }

/-- A concrete state: two users, two notes, the student logged in. -/
def demoState : DBState :=
  { users := [adminUser, studentUser], notes := [note1, note2],
    download_history := [], ratings := [], current_user := some studentSession }

/-- State of `note1` after the student has rated it 3. -/
def note1Rated : Note :=
  { note1 with rating_sum := 3, rating_count := 1 }

/-- State after the student has rated `note1` with value 3. -/
def ratedState : DBState :=
  { demoState with
    notes := [note1Rated, note2],
    ratings := [{ note_id := 1, user_id := 2, rating := 3, review := "ok" }] }

/-- A note none of whose searchable fields contains `%` or `_`. -/
def plainNote : Note :=
  { id := 7, title := "ab", category := "Math", subject := "ef", description := "cd",
    uploader_id := 1, upload_date := 0, downloads := 0, tags := "gh", file_path := "p",
    file_name := "f", file_size := 0, rating_sum := 0, rating_count := 0 }

/-! ### Lemmas about `LIKE` matching -/

/-- A leading `%` matches iff the rest of the pattern matches some suffix. -/
theorem likeM_pct_cons (ps : List Char) (s : List Char) :
    likeM ('%' :: ps) s = true ↔ ∃ t, t <:+ s ∧ likeM ps t = true := by
  simp [likeM, List.any_eq_true, List.mem_tails]

/-- The pattern `%` alone matches everything. -/
theorem likeM_pct (s : List Char) : likeM ['%'] s = true := by
  rw [likeM_pct_cons]
  exact ⟨[], List.nil_suffix, rfl⟩

/-- Prepending `%` to a matching pattern keeps it matching. -/
theorem likeM_pct_cons_of {ps : List Char} {s : List Char} (h : likeM ps s = true) :
    likeM ('%' :: ps) s = true :=
  (likeM_pct_cons ps s).mpr ⟨s, List.suffix_rfl, h⟩

/-- A wildcard-free pattern followed by `%` matches exactly the texts whose
case-folding starts with the pattern's case-folding. -/
theorem likeM_plain_pct :
    ∀ (q : List Char), (∀ c ∈ q, c ≠ '%' ∧ c ≠ '_') →
      ∀ s : List Char, likeM (q ++ ['%']) s = true ↔ q.map lowCh <+: s.map lowCh := by
  intro q
  induction q with
  | nil =>
    intro _ s
    simpa using likeM_pct s
  | cons p q ih =>
    intro hq s
    have hp : p ≠ '%' ∧ p ≠ '_' := hq p (List.mem_cons_self p q)
    cases s with
    | nil => simp [likeM, hp.1]
    | cons c s =>
      rw [List.cons_append]
      simp only [likeM, hp.1, hp.2, if_false, Bool.and_eq_true, beq_iff_eq,
        List.map_cons, List.cons_prefix_cons]
      exact and_congr Iff.rfl (ih (fun c hc => hq c (List.mem_cons_of_mem p hc)) s)

/-- Every suffix of a mapped list is the image of a suffix. -/
theorem exists_suffix_map {α β : Type} (f : α → β) {l' : List β} :
    ∀ {l : List α}, l' <:+ l.map f → ∃ t, t <:+ l ∧ t.map f = l' := by
  intro l
  induction l with
  | nil =>
    intro h
    rw [List.map_nil, List.suffix_nil] at h
    exact ⟨[], List.suffix_rfl, by rw [h, List.map_nil]⟩
  | cons a l ih =>
    intro h
    rw [List.map_cons, List.suffix_cons_iff] at h
    rcases h with h | h
    · exact ⟨a :: l, List.suffix_rfl, by rw [List.map_cons, h]⟩
    · obtain ⟨t, ht, rfl⟩ := ih h
      exact ⟨t, ht.trans (List.suffix_cons a l), rfl⟩

/-- For a query without `LIKE` wildcards, `field LIKE '%query%'` holds iff
the query occurs in the field as a case-insensitive substring. -/
theorem sqlLike_iff_ciInfix (q s : String) (hq : ∀ c ∈ q.data, c ≠ '%' ∧ c ≠ '_') :
    sqlLike ("%" ++ q ++ "%") s = true ↔ ciInfix q s := by
  have hdata : ("%" ++ q ++ "%").data = '%' :: (q.data ++ ['%']) := by
    rw [String.data_append, String.data_append]
    rfl
  rw [sqlLike, hdata, likeM_pct_cons]
  constructor
  · rintro ⟨t, hts, hlike⟩
    exact List.infix_iff_prefix_suffix.mpr
      ⟨t.map lowCh, (likeM_plain_pct q.data hq t).mp hlike, List.IsSuffix.map lowCh hts⟩
  · intro h
    obtain ⟨m, hpre, hsuf⟩ := List.infix_iff_prefix_suffix.mp h
    obtain ⟨t, hts, rfl⟩ := exists_suffix_map lowCh hsuf
    exact ⟨t, hts, (likeM_plain_pct q.data hq t).mpr hpre⟩

/-- The query `%` turns the text condition into a tautology. -/
theorem textMatch_pct (n : Note) : textMatch "%" n = true := by
  have hdata : ("%" ++ "%" ++ "%").data = ['%', '%', '%'] := by decide
  have hall : ∀ s : String, sqlLike ("%" ++ "%" ++ "%") s = true := by
    intro s
    rw [sqlLike, hdata]
    exact likeM_pct_cons_of (likeM_pct_cons_of (likeM_pct s.data))
  unfold textMatch
  rw [hall n.title, hall n.description, hall n.subject, hall n.tags]
  rfl

/-! ### Branch equations for `rate_note` -/

/-- Branch equation: `rate_note` with no active session refuses. -/
theorem rate_note_fail_none (st : DBState) (nid : Nat) (v : Int) (rev : String)
    (hcu : st.current_user = none) :
    rate_note st nid v rev = ((false, "Please login first"), st) := by
  unfold rate_note
  rw [hcu]

/-- Branch equation: `rate_note` with an out-of-range value refuses. -/
theorem rate_note_fail_range (st : DBState) (cu : CurrentUser) (nid : Nat) (v : Int)
    (rev : String) (hcu : st.current_user = some cu) (hv : v < 1 ∨ v > 5) :
    rate_note st nid v rev = ((false, "Rating must be between 1 and 5"), st) := by
  unfold rate_note
  rw [hcu]
  exact if_pos hv

/-- Branch equation: `rate_note` on a logged-in session with an in-range value performs the
upsert and the aggregate recompute. -/
theorem rate_note_update (st : DBState) (cu : CurrentUser) (nid : Nat) (v : Int) (rev : String)
    (hcu : st.current_user = some cu) (hv : ¬(v < 1 ∨ v > 5)) :
    rate_note st nid v rev =
      ((true, "✅ Rating submitted successfully!"),
       { st with
         ratings := upsertRating st.ratings nid cu.id v rev,
         notes := st.notes.map fun n =>
           if n.id == nid then
             { n with
               rating_sum := ratingSumFor (upsertRating st.ratings nid cu.id v rev) nid,
               rating_count := ratingCountFor (upsertRating st.ratings nid cu.id v rev) nid }
           else n }) := by
  unfold rate_note
  rw [hcu]
  exact if_neg hv

/-! ### Lemmas about the ratings upsert -/

/-- The in-place update step keeps every other note's rating rows. -/
theorem filter_upd_map (rs : List Rating) (nid uid j : Nat) (v : Int) (rev : String)
    (hj : j ≠ nid) :
    ((rs.map fun r =>
        if pairPred nid uid r then { r with rating := v, review := rev } else r).filter
      (fun r => r.note_id == j)) = rs.filter (fun r => r.note_id == j) := by
  induction rs with
  | nil => rfl
  | cons r t ih =>
    simp only [List.map_cons, List.filter_cons]
    by_cases hp : pairPred nid uid r = true
    · have hr : r.note_id = nid ∧ r.user_id = uid := by
        simpa [pairPred, Bool.and_eq_true] using hp
      simp [hp, hr.1, Ne.symm hj, ih]
    · simp only [Bool.not_eq_true] at hp
      simp [hp, ih]

/-- Upserting the `(nid, uid)` row leaves any other note's rating rows
untouched. -/
theorem filter_upsert_ne (rs : List Rating) (nid uid j : Nat) (v : Int) (rev : String)
    (hj : j ≠ nid) :
    (upsertRating rs nid uid v rev).filter (fun r => r.note_id == j) =
      rs.filter (fun r => r.note_id == j) := by
  unfold upsertRating
  split
  · exact filter_upd_map rs nid uid j v rev hj
  · rw [List.filter_append]
    simp [Ne.symm hj]

/-- Upserting a rating of one note does not change another note's rating sum. -/
theorem ratingSumFor_upsert_ne (rs : List Rating) (nid uid j : Nat) (v : Int) (rev : String)
    (hj : j ≠ nid) :
    ratingSumFor (upsertRating rs nid uid v rev) j = ratingSumFor rs j := by
  unfold ratingSumFor
  rw [filter_upsert_ne rs nid uid j v rev hj]

/-- Upserting a rating of one note does not change another note's rating count. -/
theorem ratingCountFor_upsert_ne (rs : List Rating) (nid uid j : Nat) (v : Int) (rev : String)
    (hj : j ≠ nid) :
    ratingCountFor (upsertRating rs nid uid v rev) j = ratingCountFor rs j := by
  unfold ratingCountFor
  rw [filter_upsert_ne rs nid uid j v rev hj]

/-- When the `(nid, uid)` row already exists the upsert inserts nothing. -/
theorem length_upsert_of_any (rs : List Rating) (nid uid : Nat) (v : Int) (rev : String)
    (h : rs.any (pairPred nid uid) = true) :
    (upsertRating rs nid uid v rev).length = rs.length := by
  rw [upsertRating, if_pos h, List.length_map]

/-- When the `(nid, uid)` row already exists the upsert changes no note's
rating count. -/
theorem ratingCountFor_upsert_of_any (rs : List Rating) (nid uid : Nat) (v : Int) (rev : String)
    (h : rs.any (pairPred nid uid) = true) (j : Nat) :
    ratingCountFor (upsertRating rs nid uid v rev) j = ratingCountFor rs j := by
  rw [upsertRating, if_pos h]
  unfold ratingCountFor
  have hcomp :
      ((fun r : Rating => r.note_id == j) ∘ fun r =>
        if pairPred nid uid r then { r with rating := v, review := rev } else r) =
      fun r : Rating => r.note_id == j := by
    funext r
    by_cases hp : pairPred nid uid r = true <;> simp [hp]
  rw [List.filter_map, hcomp, List.length_map]

/-- If no row of `rs` has the `(nid, uid)` key, the update step is the
identity. -/
theorem map_upd_of_no_pair (rs : List Rating) (nid uid : Nat) (v : Int) (rev : String)
    (h : rs.filter (pairPred nid uid) = []) :
    (rs.map fun r =>
      if pairPred nid uid r then { r with rating := v, review := rev } else r) = rs := by
  have h' := List.filter_eq_nil_iff.mp h
  have hid : ∀ r ∈ rs,
      (if pairPred nid uid r then ({ r with rating := v, review := rev } : Rating) else r) = r := by
    intro r hr
    rw [if_neg]
    simpa using h' r hr
  rw [List.map_congr_left hid]
  simp

/-- If `(nid, uid)` has exactly one row, of value `v1`, the upsert changes
the note's rating sum by `v - v1`. -/
theorem ratingSumFor_upsert_pair (nid uid : Nat) (v v1 : Int) (rev : String) :
    ∀ rs : List Rating, (rs.filter (pairPred nid uid)).map (fun r => r.rating) = [v1] →
      ratingSumFor (upsertRating rs nid uid v rev) nid = ratingSumFor rs nid - v1 + v := by
  intro rs
  induction rs with
  | nil => intro hp; simp at hp
  | cons r t ih =>
    intro hp
    by_cases hpr : pairPred nid uid r = true
    · rw [List.filter_cons_of_pos hpr, List.map_cons, List.cons.injEq] at hp
      obtain ⟨hv1, htail⟩ := hp
      have htail' : t.filter (pairPred nid uid) = [] := by
        rcases hfil : t.filter (pairPred nid uid) with _ | _
        · rfl
        · rw [hfil] at htail; simp at htail
      have hany : (r :: t).any (pairPred nid uid) = true := by simp [hpr]
      have hrnid : r.note_id = nid := by
        have hr : r.note_id = nid ∧ r.user_id = uid := by
          simpa [pairPred, Bool.and_eq_true] using hpr
        exact hr.1
      rw [upsertRating, if_pos hany, List.map_cons, if_pos hpr,
        map_upd_of_no_pair t nid uid v rev htail']
      unfold ratingSumFor
      rw [List.filter_cons, List.filter_cons]
      simp only [hrnid, beq_self_eq_true, if_true, List.map_cons, List.sum_cons, hv1]
      omega
    · rw [List.filter_cons_of_neg hpr] at hp
      have hany : t.any (pairPred nid uid) = true := by
        rcases hfil : t.filter (pairPred nid uid) with _ | ⟨r₀, t₀⟩
        · rw [hfil] at hp; simp at hp
        · have hmem : r₀ ∈ t.filter (pairPred nid uid) := by
            rw [hfil]; exact List.mem_cons_self r₀ t₀
          exact List.any_eq_true.mpr
            ⟨r₀, (List.mem_filter.mp hmem).1, (List.mem_filter.mp hmem).2⟩
      have hanyc : (r :: t).any (pairPred nid uid) = true := by simp [hany]
      have hihs := ih hp
      rw [upsertRating, if_pos hany] at hihs
      rw [upsertRating, if_pos hanyc, List.map_cons, if_neg hpr]
      unfold ratingSumFor at hihs ⊢
      rw [List.filter_cons, List.filter_cons]
      by_cases hrn : (r.note_id == nid) = true
      · simp only [hrn, if_true, List.map_cons, List.sum_cons]
        omega
      · simp only [Bool.not_eq_true] at hrn
        simp only [hrn, Bool.false_eq_true, if_false]
        exact hihs

/-- Every `(nid, uid)` row of the upsert result carries the new value and
review. -/
theorem upsert_pair_rows (rs : List Rating) (nid uid : Nat) (v : Int) (rev : String) :
    ∀ r' ∈ upsertRating rs nid uid v rev, r'.note_id = nid → r'.user_id = uid →
      r'.rating = v ∧ r'.review = rev := by
  intro r' hmem hn hu
  by_cases hany : rs.any (pairPred nid uid) = true
  · rw [upsertRating, if_pos hany] at hmem
    obtain ⟨r, hr, rfl⟩ := List.mem_map.mp hmem
    by_cases hp : pairPred nid uid r = true
    · simp [hp]
    · rw [if_neg hp] at hn hu ⊢
      exact absurd (by simp [pairPred, hn, hu]) hp
  · rw [upsertRating, if_neg hany, List.mem_append] at hmem
    rcases hmem with hmem | hmem
    · have : ¬ pairPred nid uid r' = true := by
        intro hp
        exact hany (List.any_eq_true.mpr ⟨r', hmem, hp⟩)
      exact absurd (by simp [pairPred, hn, hu]) this
    · rw [List.mem_singleton] at hmem
      rw [hmem]
      exact ⟨rfl, rfl⟩

/-- The upsert result always contains a row for `(nid, uid)` carrying the
new value and review. -/
theorem upsert_exists_pair (rs : List Rating) (nid uid : Nat) (v : Int) (rev : String) :
    ∃ r' ∈ upsertRating rs nid uid v rev, r'.note_id = nid ∧ r'.user_id = uid ∧
      r'.rating = v ∧ r'.review = rev := by
  by_cases hany : rs.any (pairPred nid uid) = true
  · obtain ⟨r, hr, hp⟩ := List.any_eq_true.mp hany
    have hkey : r.note_id = nid ∧ r.user_id = uid := by
      simpa [pairPred, Bool.and_eq_true] using hp
    rw [upsertRating, if_pos hany]
    refine ⟨if pairPred nid uid r then { r with rating := v, review := rev } else r,
      List.mem_map_of_mem _ hr, ?_⟩
    rw [if_pos hp]
    exact ⟨hkey.1, hkey.2, rfl, rfl⟩
  · rw [upsertRating, if_neg hany]
    exact ⟨{ note_id := nid, user_id := uid, rating := v, review := rev },
      List.mem_append_right _ (List.mem_singleton.mpr rfl), rfl, rfl, rfl, rfl⟩

/-! ### C1: the rating aggregate invariant -/

/-- C1.  After every `rate_note` call (any session, note id, value and
review) every note's stored `rating_sum`/`rating_count` equal the sum and
count of that note's `ratings` rows: the call preserves the aggregate
invariant, and whenever the update branch runs it recomputes the rated
id's aggregates in full from the ratings table, unconditionally. -/
theorem rate_note_aggregate_invariant (st : DBState) (nid : Nat) (v : Int) (rev : String) :
    (aggInv st → aggInv (rate_note st nid v rev).snd) ∧
    (∀ cu, st.current_user = some cu → ¬(v < 1 ∨ v > 5) →
      ∀ n' ∈ (rate_note st nid v rev).snd.notes, n'.id = nid →
        n'.rating_sum = ratingSumFor (rate_note st nid v rev).snd.ratings nid ∧
        n'.rating_count = ratingCountFor (rate_note st nid v rev).snd.ratings nid) := by
  constructor
  · intro h
    rcases hcu : st.current_user with _ | cu
    · rw [rate_note_fail_none st nid v rev hcu]
      exact h
    · by_cases hv : v < 1 ∨ v > 5
      · rw [rate_note_fail_range st cu nid v rev hcu hv]
        exact h
      · rw [rate_note_update st cu nid v rev hcu hv]
        intro n' hn'
        obtain ⟨n, hn, rfl⟩ := List.mem_map.mp hn'
        by_cases hid : (n.id == nid) = true
        · have hideq : n.id = nid := by simpa using hid
          rw [if_pos hid]
          constructor
          · show ratingSumFor (upsertRating st.ratings nid cu.id v rev) nid =
              ratingSumFor (upsertRating st.ratings nid cu.id v rev) n.id
            rw [hideq]
          · show ratingCountFor (upsertRating st.ratings nid cu.id v rev) nid =
              ratingCountFor (upsertRating st.ratings nid cu.id v rev) n.id
            rw [hideq]
        · have hideq : n.id ≠ nid := by simpa using hid
          rw [if_neg hid]
          obtain ⟨h1, h2⟩ := h n hn
          exact ⟨h1.trans (ratingSumFor_upsert_ne st.ratings nid cu.id n.id v rev hideq).symm,
                 h2.trans (ratingCountFor_upsert_ne st.ratings nid cu.id n.id v rev hideq).symm⟩
  · intro cu hcu hv n' hn' hid'
    rw [rate_note_update st cu nid v rev hcu hv] at hn' ⊢
    obtain ⟨n, hn, rfl⟩ := List.mem_map.mp hn'
    by_cases hid : (n.id == nid) = true
    · rw [if_pos hid]
      exact ⟨rfl, rfl⟩
    · rw [if_neg hid] at hid'
      exact absurd hid' (by simpa using hid)

/-- Witness for C1 at a concrete state. -/
theorem rate_note_aggregate_invariant_wit :
    aggInv (rate_note demoState 1 4 "").snd ∧
    (∀ n' ∈ (rate_note demoState 1 4 "").snd.notes, n'.id = 1 →
      n'.rating_sum = ratingSumFor (rate_note demoState 1 4 "").snd.ratings 1 ∧
      n'.rating_count = ratingCountFor (rate_note demoState 1 4 "").snd.ratings 1) :=
  ⟨(rate_note_aggregate_invariant demoState 1 4 "").1 (by decide),
   (rate_note_aggregate_invariant demoState 1 4 "").2 studentSession (by decide) (by decide)⟩

/-! ### C2: re-rating the same (note, user) pair -/

/-- C2.  If user `cu` has already rated note `N` (one `ratings` row for
the pair, of value `v1`) and the stored aggregates agree with the ratings
table, a second `rate_note` with `v2 ∈ [1,5]` creates no second row,
leaves the rating count unchanged, changes the rating sum by exactly
`v2 - v1`, and overwrites the stored value and review for the pair. -/
theorem rate_note_rerate (st : DBState) (cu : CurrentUser) (N : Note) (nid : Nat)
    (v1 v2 : Int) (rev : String)
    (hcu : st.current_user = some cu)
    (hv1 : 1 ≤ v1 ∧ v1 ≤ 5) (hv2 : 1 ≤ v2 ∧ v2 ≤ 5)
    (hN : N ∈ st.notes) (hNid : N.id = nid)
    (hold : (st.ratings.filter (pairPred nid cu.id)).map (fun r => r.rating) = [v1])
    (hsum : N.rating_sum = ratingSumFor st.ratings nid)
    (hcount : N.rating_count = ratingCountFor st.ratings nid) :
    (rate_note st nid v2 rev).snd.ratings.length = st.ratings.length ∧
    (∀ n' ∈ (rate_note st nid v2 rev).snd.notes, n'.id = nid →
      n'.rating_count = N.rating_count ∧ n'.rating_sum = N.rating_sum + v2 - v1) ∧
    (∀ r' ∈ (rate_note st nid v2 rev).snd.ratings, r'.note_id = nid → r'.user_id = cu.id →
      r'.rating = v2 ∧ r'.review = rev) := by
  have hv : ¬(v2 < 1 ∨ v2 > 5) := by omega
  rw [rate_note_update st cu nid v2 rev hcu hv]
  have hany : st.ratings.any (pairPred nid cu.id) = true := by
    rcases hfil : st.ratings.filter (pairPred nid cu.id) with _ | ⟨r, t⟩
    · rw [hfil] at hold
      simp at hold
    · have hmem : r ∈ st.ratings.filter (pairPred nid cu.id) := by
        rw [hfil]
        exact List.mem_cons_self r t
      exact List.any_eq_true.mpr
        ⟨r, (List.mem_filter.mp hmem).1, (List.mem_filter.mp hmem).2⟩
  refine ⟨length_upsert_of_any st.ratings nid cu.id v2 rev hany, ?_, ?_⟩
  · intro n' hn' hid'
    obtain ⟨n, hn, rfl⟩ := List.mem_map.mp hn'
    by_cases hid : (n.id == nid) = true
    · rw [if_pos hid]
      constructor
      · show ratingCountFor (upsertRating st.ratings nid cu.id v2 rev) nid = N.rating_count
        rw [hcount, ratingCountFor_upsert_of_any st.ratings nid cu.id v2 rev hany nid]
      · show ratingSumFor (upsertRating st.ratings nid cu.id v2 rev) nid =
          N.rating_sum + v2 - v1
        rw [hsum, ratingSumFor_upsert_pair nid cu.id v2 v1 rev st.ratings hold]
        omega
    · rw [if_neg hid] at hid'
      exact absurd hid' (by simpa using hid)
  · intro r' hr' hn hu
    exact upsert_pair_rows st.ratings nid cu.id v2 rev r' hr' hn hu

/-- Witness for C2: the student re-rates `note1` from 3 to 5. -/
theorem rate_note_rerate_wit :
    (rate_note ratedState 1 5 "better").snd.ratings.length = ratedState.ratings.length ∧
    (∀ n' ∈ (rate_note ratedState 1 5 "better").snd.notes, n'.id = 1 →
      n'.rating_count = note1Rated.rating_count ∧
      n'.rating_sum = note1Rated.rating_sum + 5 - 3) ∧
    (∀ r' ∈ (rate_note ratedState 1 5 "better").snd.ratings,
      r'.note_id = 1 → r'.user_id = studentSession.id →
      r'.rating = 5 ∧ r'.review = "better") :=
  rate_note_rerate ratedState studentSession note1Rated 1 3 5 "better"
    (by decide) (by decide) (by decide) (by decide) (by decide)
    (by decide) (by decide) (by decide)

/-! ### C3: rating an absent note -/

/-- C3 counterexample.  In `demoState` the student is logged in, no
note has id 99, and the value 3 lies in `[1,5]`; yet `rate_note` reports
success and creates a `ratings` row for id 99 — it does not fail with a
not-found error, refuting the claim at this input. -/
theorem rate_note_absent_cex :
    demoState.current_user = some studentSession ∧
    demoState.notes.find? (fun n => n.id == 99) = none ∧
    (rate_note demoState 99 3 "").fst = (true, "✅ Rating submitted successfully!") ∧
    (rate_note demoState 99 3 "").snd.ratings.length = 1 := by
  decide

/-- C3, amended.  `rate_note` performs no existence check: with a
logged-in session and an in-range value, rating an absent note id
succeeds, leaves the notes table unchanged, and upserts an orphaned
`ratings` row for that id. -/
theorem rate_note_absent_succeeds (st : DBState) (cu : CurrentUser) (nid : Nat) (v : Int)
    (rev : String) (hcu : st.current_user = some cu) (hlo : 1 ≤ v) (hhi : v ≤ 5)
    (habs : st.notes.find? (fun n => n.id == nid) = none) :
    (rate_note st nid v rev).fst = (true, "✅ Rating submitted successfully!") ∧
    (rate_note st nid v rev).snd.notes = st.notes ∧
    ∃ r' ∈ (rate_note st nid v rev).snd.ratings, r'.note_id = nid ∧ r'.user_id = cu.id ∧
      r'.rating = v ∧ r'.review = rev := by
  have hv : ¬(v < 1 ∨ v > 5) := by omega
  rw [rate_note_update st cu nid v rev hcu hv]
  have h' := List.find?_eq_none.mp habs
  refine ⟨rfl, ?_, upsert_exists_pair st.ratings nid cu.id v rev⟩
  have hmap : ∀ n ∈ st.notes,
      (if n.id == nid then
        { n with
          rating_sum := ratingSumFor (upsertRating st.ratings nid cu.id v rev) nid,
          rating_count := ratingCountFor (upsertRating st.ratings nid cu.id v rev) nid }
       else n) = n := by
    intro n hn
    rw [if_neg]
    simpa using h' n hn
  show (st.notes.map _) = st.notes
  rw [List.map_congr_left hmap]
  simp

/-- Witness for the amended C3 at a concrete state. -/
theorem rate_note_absent_succeeds_wit :
    (rate_note demoState 99 3 "").fst = (true, "✅ Rating submitted successfully!") ∧
    (rate_note demoState 99 3 "").snd.notes = demoState.notes ∧
    ∃ r' ∈ (rate_note demoState 99 3 "").snd.ratings, r'.note_id = 99 ∧
      r'.user_id = studentSession.id ∧ r'.rating = 3 ∧ r'.review = "" :=
  rate_note_absent_succeeds demoState studentSession 99 3 ""
    (by decide) (by decide) (by decide) (by decide)

/-! ### C4: download -/

/-- C4.  `download_note` fails with the auth message and no state change
when no session is active; fails with the not-found message and no state
change when the note is absent; and on success returns the note's file
path, rewrites the notes table with exactly that note's download counter
incremented by one, and appends exactly one `download_history` row for
`(note, user)`, touching nothing else. -/
theorem download_note_spec (st : DBState) (nid : Nat) :
    (st.current_user = none →
      download_note st nid = ((false, "Please login first", none), st)) ∧
    (∀ cu, st.current_user = some cu →
      st.notes.find? (fun n => n.id == nid) = none →
      download_note st nid = ((false, "Note not found", none), st)) ∧
    (∀ cu note, st.current_user = some cu →
      st.notes.find? (fun n => n.id == nid) = some note →
      (download_note st nid).fst =
        (true, "✅ '" ++ note.title ++ "' ready for download", some note.file_path) ∧
      (download_note st nid).snd.notes =
        st.notes.map (fun n => if n.id == nid then { n with downloads := n.downloads + 1 } else n) ∧
      (download_note st nid).snd.download_history =
        st.download_history ++ [{ note_id := nid, user_id := cu.id }] ∧
      (download_note st nid).snd.users = st.users ∧
      (download_note st nid).snd.ratings = st.ratings ∧
      (download_note st nid).snd.current_user = st.current_user) := by
  refine ⟨?_, ?_, ?_⟩
  · intro h
    unfold download_note
    rw [h]
  · intro cu hcu habs
    unfold download_note
    rw [hcu, habs]
  · intro cu note hcu hfind
    unfold download_note
    rw [hcu, hfind]
    exact ⟨rfl, rfl, rfl, rfl, rfl, rfl⟩

/-- Witness for C4: the student downloads `note1`. -/
theorem download_note_spec_wit :
    (download_note demoState 1).fst =
      (true, "✅ '" ++ note1.title ++ "' ready for download", some note1.file_path) ∧
    (download_note demoState 1).snd.notes =
      demoState.notes.map
        (fun n => if n.id == 1 then { n with downloads := n.downloads + 1 } else n) ∧
    (download_note demoState 1).snd.download_history =
      demoState.download_history ++ [{ note_id := 1, user_id := studentSession.id }] ∧
    (download_note demoState 1).snd.users = demoState.users ∧
    (download_note demoState 1).snd.ratings = demoState.ratings ∧
    (download_note demoState 1).snd.current_user = demoState.current_user :=
  (download_note_spec demoState 1).2.2 studentSession note1 (by decide) (by decide)

/-! ### C5: delete refused for non-owner, non-admin -/

/-- C5.  `delete_note` on an existing note by a session that is neither
the uploader nor an admin fails with the permission message and leaves
the whole state (note, ratings, download history) unchanged. -/
theorem delete_note_unauthorized (st : DBState) (cu : CurrentUser) (note : Note) (nid : Nat)
    (hcu : st.current_user = some cu)
    (hfind : st.notes.find? (fun n => n.id == nid) = some note)
    (howner : note.uploader_id ≠ cu.id) (hrole : cu.role ≠ "admin") :
    delete_note st nid = ((false, "You don't have permission to delete this note"), st) := by
  unfold delete_note
  rw [hcu, hfind]
  exact if_pos ⟨howner, hrole⟩

/-- Witness for C5: the student may not delete the admin's `note1`. -/
theorem delete_note_unauthorized_wit :
    delete_note demoState 1 =
      ((false, "You don't have permission to delete this note"), demoState) :=
  delete_note_unauthorized demoState studentSession note1 1
    (by decide) (by decide) (by decide) (by decide)

/-! ### C6: successful delete cascades -/

/-- C6.  A successful `delete_note` by the owner or an admin removes
every `ratings` row and every `download_history` row of the note, and a
subsequent lookup of the id finds nothing. -/
theorem delete_note_cascades (st : DBState) (cu : CurrentUser) (note : Note) (nid : Nat)
    (hcu : st.current_user = some cu)
    (hfind : st.notes.find? (fun n => n.id == nid) = some note)
    (hperm : note.uploader_id = cu.id ∨ cu.role = "admin") :
    (delete_note st nid).fst = (true, "✅ Note deleted successfully") ∧
    (delete_note st nid).snd.notes.find? (fun n => n.id == nid) = none ∧
    (delete_note st nid).snd.ratings.filter (fun r => r.note_id == nid) = [] ∧
    (delete_note st nid).snd.download_history.filter (fun d => d.note_id == nid) = [] := by
  have hcond : ¬(note.uploader_id ≠ cu.id ∧ cu.role ≠ "admin") := by
    rcases hperm with h | h
    · intro hc
      exact hc.1 h
    · intro hc
      exact hc.2 h
  have heq : delete_note st nid =
      ((true, "✅ Note deleted successfully"),
       { st with
         notes := st.notes.filter fun n => n.id != nid,
         download_history := st.download_history.filter fun d => d.note_id != nid,
         ratings := st.ratings.filter fun r => r.note_id != nid }) := by
    unfold delete_note
    rw [hcu, hfind]
    exact if_neg hcond
  rw [heq]
  refine ⟨rfl, ?_, ?_, ?_⟩
  · rw [List.find?_eq_none]
    intro n hn
    simpa using (List.mem_filter.mp hn).2
  · rw [List.filter_eq_nil_iff]
    intro r hr
    simpa using (List.mem_filter.mp hr).2
  · rw [List.filter_eq_nil_iff]
    intro d hd
    simpa using (List.mem_filter.mp hd).2

/-- Witness for C6: the student deletes their own `note2`. -/
theorem delete_note_cascades_wit :
    (delete_note demoState 2).fst = (true, "✅ Note deleted successfully") ∧
    (delete_note demoState 2).snd.notes.find? (fun n => n.id == 2) = none ∧
    (delete_note demoState 2).snd.ratings.filter (fun r => r.note_id == 2) = [] ∧
    (delete_note demoState 2).snd.download_history.filter (fun d => d.note_id == 2) = [] :=
  delete_note_cascades demoState studentSession note2 2
    (by decide) (by decide) (Or.inl (by decide))

/-! ### C9: failed authentication leaves the session alone -/

/-- C9.  When authentication fails — the username is absent, or the
stored digest differs from the digest of the supplied password —
`authenticate` returns the invalid-credentials failure and the state,
including the current session, exactly as it was. -/
theorem authenticate_fail_preserves_session (hash : String → String) (st : DBState)
    (username password : String)
    (hfail : ∀ u, st.users.find? (fun u => u.username == username) = some u →
      u.password ≠ hash password) :
    authenticate hash st username password = ((false, "Invalid username or password", none), st) := by
  unfold authenticate
  rcases hfind : st.users.find? (fun u => u.username == username) with _ | u
  · rw [hfind]
  · rw [hfind]
    exact if_neg (by simpa using hfail u hfind)

/-- Witness for C9: a wrong password for `admin` leaves `demoState`
untouched. -/
theorem authenticate_fail_preserves_session_wit :
    authenticate (fun s => s) demoState "admin" "wrong" =
      ((false, "Invalid username or password", none), demoState) :=
  authenticate_fail_preserves_session (fun s => s) demoState "admin" "wrong"
    (by
      intro u hu
      have h1 : demoState.users.find? (fun v => v.username == "admin") = some adminUser := by
        decide
      rw [h1, Option.some_inj] at hu
      rw [← hu]
      decide)

/-! ### C7: the default search returns the whole catalog, newest first -/

/-- When every note's uploader exists, the join projects back onto the
notes list, in order. -/
theorem joinRows_map_note (users : List User) :
    ∀ notes : List Note, (∀ n ∈ notes, ∃ u ∈ users, u.id = n.uploader_id) →
      ((notes.filterMap fun n =>
          (users.find? fun u => u.id == n.uploader_id).map fun u =>
            ({ note := n, uploader_name := u.username, avg_rating := avgRating n } : NoteView)).map
        (fun v => v.note)) = notes := by
  intro notes
  induction notes with
  | nil => intro _; rfl
  | cons n t ih =>
    intro h
    obtain ⟨u, hu, huid⟩ := h n (List.mem_cons_self n t)
    have hfind : (users.find? fun v => v.id == n.uploader_id).isSome = true := by
      rw [List.find?_isSome]
      exact ⟨u, hu, by simpa using huid⟩
    obtain ⟨u', hu'⟩ := Option.isSome_iff_exists.mp hfind
    have hfn : ((users.find? fun v => v.id == n.uploader_id).map fun u =>
        ({ note := n, uploader_name := u.username, avg_rating := avgRating n } : NoteView)) =
        some { note := n, uploader_name := u'.username, avg_rating := avgRating n } := by
      rw [hu']
      rfl
    simp only [List.filterMap_cons, hu', Option.map_some', List.map_cons]
    rw [ih (fun m hm => h m (List.mem_cons_of_mem n hm))]

/-- Transitivity of `recentLe`. -/
theorem recentLe_trans (a b c : NoteView) (hab : recentLe a b = true)
    (hbc : recentLe b c = true) : recentLe a c = true := by
  simp only [recentLe, Nat.ble_eq] at hab hbc ⊢
  omega

/-- Totality of `recentLe`. -/
theorem recentLe_total (a b : NoteView) : (recentLe a b || recentLe b a) = true := by
  simp only [recentLe, Bool.or_eq_true, Nat.ble_eq]
  omega

/-- C7.  When every note's uploader id refers to an existing user (the
schema's foreign-key integrity, under which the inner join drops
nothing), `search_notes ""  "All" "recent"` returns a view of every note
in the catalog, ordered by upload timestamp descending. -/
theorem search_default_returns_all (st : DBState)
    (h : ∀ n ∈ st.notes, ∃ u ∈ st.users, u.id = n.uploader_id) :
    ((search_notes st "" "All" "recent").map (fun v => v.note)).Perm st.notes ∧
    List.Pairwise (fun a b : NoteView => b.note.upload_date ≤ a.note.upload_date)
      (search_notes st "" "All" "recent") := by
  have hsearch : search_notes st "" "All" "recent" = (joinRows st).mergeSort recentLe := by
    unfold search_notes sortRows
    simp
  have hjoin : (joinRows st).map (fun v => v.note) = st.notes :=
    joinRows_map_note st.users st.notes h
  constructor
  · rw [hsearch]
    have hmap := (List.mergeSort_perm (joinRows st) recentLe).map (fun v => v.note)
    rw [hjoin] at hmap
    exact hmap
  · rw [hsearch]
    exact (List.sorted_mergeSort recentLe_trans recentLe_total (joinRows st)).imp
      (fun hab => by simpa [recentLe, Nat.ble_eq] using hab)

/-- Witness for C7 at a concrete two-note state. -/
theorem search_default_returns_all_wit :
    ((search_notes demoState "" "All" "recent").map (fun v => v.note)).Perm demoState.notes ∧
    List.Pairwise (fun a b : NoteView => b.note.upload_date ≤ a.note.upload_date)
      (search_notes demoState "" "All" "recent") :=
  search_default_returns_all demoState (by decide)

/-- Whatever the sort key, ordering only permutes the rows. -/
theorem sortRows_perm (key : String) (rows : List NoteView) :
    (sortRows key rows).Perm rows := by
  unfold sortRows
  by_cases h1 : key = "recent"
  · rw [if_pos h1]
    exact List.mergeSort_perm _ _
  · rw [if_neg h1]
    by_cases h2 : key = "popular"
    · rw [if_pos h2]
      exact List.mergeSort_perm _ _
    · rw [if_neg h2]
      by_cases h3 : key = "rating"
      · rw [if_pos h3]
        exact List.mergeSort_perm _ _
      · rw [if_neg h3]

/-! ### C8: the text filter -/

/-- C8 counterexample.  The search text `_` is substituted into the
`LIKE` pattern unescaped, so it matches `plainNote` — each searchable
field a two-character string — although `_` occurs as a substring of
none of the four fields; the claimed if-and-only-if fails at this input. -/
theorem textMatch_wildcard_cex :
    textMatch "_" plainNote = true ∧
    ¬ ciInfix "_" plainNote.title ∧ ¬ ciInfix "_" plainNote.description ∧
    ¬ ciInfix "_" plainNote.subject ∧ ¬ ciInfix "_" plainNote.tags := by
  decide

/-- C8, amended.  An empty search text applies no text filter — the
result is, up to the final ordering, the category-filtered join — and
for every non-empty search text containing neither `LIKE` wildcard
(`%`, `_`), the text filter admits a note iff the text occurs as a
case-insensitive substring of its title, or description, or subject, or
serialized tag list (OR semantics). -/
theorem text_filter_spec :
    (∀ st category sort_by, (search_notes st "" category sort_by).Perm
      (if category ≠ "All" then (joinRows st).filter (fun v => v.note.category == category)
       else joinRows st)) ∧
    (∀ q n, q ≠ "" → (∀ c ∈ q.data, c ≠ '%' ∧ c ≠ '_') →
      (textMatch q n = true ↔
        ciInfix q n.title ∨ ciInfix q n.description ∨ ciInfix q n.subject ∨ ciInfix q n.tags)) := by
  constructor
  · intro st category sort_by
    have hred : search_notes st "" category sort_by =
        sortRows sort_by
          (if category ≠ "All" then (joinRows st).filter (fun v => v.note.category == category)
           else joinRows st) := by
      unfold search_notes
      simp
    rw [hred]
    exact sortRows_perm sort_by _
  · intro q n hne hq
    unfold textMatch
    simp only [Bool.or_eq_true]
    rw [sqlLike_iff_ciInfix q n.title hq, sqlLike_iff_ciInfix q n.description hq,
      sqlLike_iff_ciInfix q n.subject hq, sqlLike_iff_ciInfix q n.tags hq]
    simp only [or_assoc]

/-- Witness for the amended C8: the wildcard-free query `py` matches
`note1` exactly as the substring condition predicts. -/
theorem text_filter_spec_wit :
    textMatch "py" note1 = true ↔
      ciInfix "py" note1.title ∨ ciInfix "py" note1.description ∨
      ciInfix "py" note1.subject ∨ ciInfix "py" note1.tags :=
  text_filter_spec.2 "py" note1 (by decide) (by decide)

/-! ### C10: the `%` search text matches everything -/

/-- C10.  Search text is substituted into the `LIKE` pattern without
escaping, so searching for `%` — which wraps to the pattern `%%%` —
returns exactly what the empty search text returns, for every state,
category and sort key. -/
theorem search_pct_eq_empty (st : DBState) (category sort_by : String) :
    search_notes st "%" category sort_by = search_notes st "" category sort_by := by
  unfold search_notes
  have hfilter : (joinRows st).filter (fun v => textMatch "%" v.note) = joinRows st :=
    List.filter_eq_self.mpr (fun v _ => textMatch_pct v.note)
  simp [hfilter]

end CloudNotes
